import Mathlib

/-!
Verification of the topology data model and the recursive path-enumeration
algorithm of `src/topology.rs` (net-graph-search).

Shallow embedding conventions:
* `NodeId` (Rust `u32`) and `IfaceIndex` (Rust `u8`) are modelled as `Nat`;
  the code only compares them for equality and uses them as map keys, so no
  wrap-around arithmetic is involved.
* Rust `HashMap` fields (`Topology.nodes`, `TopologyNode.ifaces`) are
  modelled as association lists.  Iteration order of a `HashMap` is
  unspecified but fixed for an unmodified map, which the list order models:
  theorems quantified over `Topology` cover every possible iteration order.
* `VecDeque<PathNode>` is a `List PathNode`; `push_back` appends,
  `pop_back` drops the last element, `back_mut` edits the last element.
* A panicking `unwrap()` is modelled by an `Option` result whose `none`
  means "the operation aborted" (fail fast).  `get_adjacent_interface` and
  `get_local_iface_id_type` therefore return `Option (Option IfaceIndex)`:
  the outer layer is the panic, the inner layer is the function's ordinary
  `Option` result.
* The recursion of `find_path` is fueled: `fuel` bounds the depth of nested
  recursive calls, and `none` is returned when fuel runs out or a lookup
  panics.  The two `for` loops inside `find_path` are split off as the
  structurally recursive helpers `find_path_ifaces` (outer loop over the
  node's interfaces) and `find_path_neighbors` (inner loop over one
  interface's neighbor links); they receive the recursive call as the
  function argument `fp`, which `find_path` instantiates with itself at one
  fuel less, exactly mirroring the source's self-call.
-/

namespace NetGraph

abbrev NodeId := Nat

abbrev IfaceIndex := Nat

/-- One hop of a result or in-progress path (struct `PathNode`): the node,
the interface through which the path left it (`forward_if_id`) and the
interface through which it entered (`reverse_if_id`). -/
structure PathNode where
  id : NodeId
  forward_if_id : IfaceIndex
  reverse_if_id : IfaceIndex
deriving DecidableEq

/-- `PathNode::new`: both interface tags start at `Default::default()`,
which is `0` for the underlying integer newtype. -/
def PathNode.new (id : NodeId) : PathNode :=
  { id := id, forward_if_id := 0, reverse_if_id := 0 }

/-- Struct `Path`: an ordered hop sequence (the Rust `VecDeque`). -/
structure Path where
  nodes : List PathNode
deriving DecidableEq

/-- `Path::new`. -/
def Path.new : Path := ⟨[]⟩

/-- Interface type tags (enum `InterfaceType`). -/
inductive InterfaceType where
  | LocalApp
  | LocalNet
  | Internet
deriving DecidableEq

/-- Struct `Interface`: an index, a type and a list of neighbor links
`(neighbor NodeId, neighbor-side IfaceIndex)`. -/
structure Interface where
  id : IfaceIndex
  if_type : InterfaceType
  neighbors : List (NodeId × IfaceIndex)
deriving DecidableEq

/-- Struct `TopologyNode`: its id and its interfaces, keyed by
`IfaceIndex` (a `HashMap` in the source, an association list here). -/
structure TopologyNode where
  id : NodeId
  ifaces : List (IfaceIndex × Interface)
deriving DecidableEq

/-- Struct `Topology`: nodes keyed by `NodeId`. -/
structure Topology where
  nodes : List (NodeId × TopologyNode)
deriving DecidableEq

/-- Association-list lookup, modelling `HashMap::get`. -/
def lookupAssoc {α : Type} (k : Nat) : List (Nat × α) → Option α
  | [] => none
  | (k2, v) :: rest => if k2 = k then some v else lookupAssoc k rest

/-- Association-list insert-or-replace, modelling `HashMap::insert`. -/
def insertAssoc {α : Type} (k : Nat) (v : α) : List (Nat × α) → List (Nat × α)
  | [] => [(k, v)]
  | (k2, v2) :: rest => if k2 = k then (k, v) :: rest else (k2, v2) :: insertAssoc k v rest

/-- `TopologyNode::add_iface`. -/
def TopologyNode.add_iface (node : TopologyNode) (iface : Interface) : TopologyNode :=
  { node with ifaces := insertAssoc iface.id iface node.ifaces }

/-- `Topology::add_node`. -/
def Topology.add_node (topo : Topology) (node : TopologyNode) : Topology :=
  { topo with nodes := insertAssoc node.id node topo.nodes }

/-- `Topology::get_node_mut`: `self.nodes.get_mut(&node_id).unwrap()`.
`none` models the panic on an unknown id. -/
def get_node_mut (topo : Topology) (node_id : NodeId) : Option TopologyNode :=
  lookupAssoc node_id topo.nodes

/-- `Topology::find_internet_gateway`: the ids of all nodes owning at least
one `Internet`-typed interface. -/
def find_internet_gateway (topo : Topology) : List NodeId :=
  (topo.nodes.filter
    (fun p => p.2.ifaces.any (fun q => q.2.if_type = InterfaceType.Internet))).map
    (fun p => p.1)

/-- The `for` loop of `get_adjacent_interface`: first neighbor link of the
given list whose node id equals `to_node`. -/
def findNeighbor (to_node : NodeId) : List (NodeId × IfaceIndex) → Option IfaceIndex
  | [] => none
  | (neigh_id, adj_iface) :: rest =>
    if neigh_id = to_node then some adj_iface else findNeighbor to_node rest

/-- `Topology::get_adjacent_interface`.  The outer `Option` models the two
`unwrap()` panics (unknown `from_node` or unknown `via_if`); the inner
`Option` is the source function's own return value. -/
def get_adjacent_interface (topo : Topology) (from_node : NodeId) (via_if : IfaceIndex)
    (to_node : NodeId) : Option (Option IfaceIndex) :=
  match lookupAssoc from_node topo.nodes with
  | none => none
  | some node =>
    match lookupAssoc via_if node.ifaces with
    | none => none
    | some iface => some (findNeighbor to_node iface.neighbors)

/-- The `for` loop of `get_local_iface_id_type`: first interface of the
given type in the list. -/
def findIfaceOfType (t : InterfaceType) : List (IfaceIndex × Interface) → Option IfaceIndex
  | [] => none
  | (if_id, iface) :: rest =>
    if iface.if_type = t then some if_id else findIfaceOfType t rest

/-- `Topology::get_local_iface_id_type`.  Outer `Option` models the
`unwrap()` panic on an unknown node id. -/
def get_local_iface_id_type (topo : Topology) (id : NodeId) (if_type : InterfaceType) :
    Option (Option IfaceIndex) :=
  match lookupAssoc id topo.nodes with
  | none => none
  | some node => some (findIfaceOfType if_type node.ifaces)

/-- `Topology::get_local_app_iface_id`. -/
def get_local_app_iface_id (topo : Topology) (id : NodeId) : Option (Option IfaceIndex) :=
  get_local_iface_id_type topo id InterfaceType.LocalApp

/-- `Topology::get_internet_iface_id`. -/
def get_internet_iface_id (topo : Topology) (id : NodeId) : Option (Option IfaceIndex) :=
  get_local_iface_id_type topo id InterfaceType.Internet

/-- `Topology::check_if_visitted`: whether a node id already occurs in the
in-progress path. -/
def check_if_visitted (id : NodeId) (path : Path) : Bool :=
  path.nodes.any (fun node => node.id = id)

/-- `curr_path.nodes.back_mut().unwrap()` followed by an assignment to
`forward_if_id`: edits the last `PathNode`; `none` models the panic on an
empty path. -/
def setLastForward (p : Path) (fid : IfaceIndex) : Option Path :=
  match p.nodes.getLast? with
  | none => none
  | some last => some ⟨p.nodes.dropLast ++ [{ last with forward_if_id := fid }]⟩

/-- `curr_path.nodes.pop_back().unwrap()`: drops the last `PathNode`;
`none` models the panic on an empty path. -/
def popBack (p : Path) : Option Path :=
  match p.nodes.getLast? with
  | none => none
  | some _ => some ⟨p.nodes.dropLast⟩

/-- Result of the inner neighbor loop of `find_path`: either the loop body
executed `return true` (early success), or the loop ran to completion with
the final `flag`, in-progress path and accumulator. -/
inductive NeighLoopRes where
  | earlyTrue (cp : Path) (pv : List Path)
  | done (flag : Bool) (cp : Path) (pv : List Path)
deriving DecidableEq

/-- The inner `for (neigh_id, neigh_if_id) in &iface.neighbors` loop of
`find_path`.  `fp` is the recursive call (`find_path` at one fuel less,
with the topology and destination already applied); `if_id` is the
interface being visited, `ifaces_to_visit` the still-to-explore pool after
this interface was removed, `flag` the accumulated success flag. -/
def find_path_neighbors (fp : NodeId → IfaceIndex → Path → List Path →
      Option (Bool × Path × List Path))
    (if_id : IfaceIndex) (neighbors : List (NodeId × IfaceIndex))
    (ifaces_to_visit : List IfaceIndex) (flag : Bool)
    (curr_path : Path) (path_vec : List Path) : Option NeighLoopRes :=
  match neighbors with
  | [] => some (NeighLoopRes.done flag curr_path path_vec)
  | (neigh_id, neigh_if_id) :: rest =>
    if check_if_visitted neigh_id curr_path then
      find_path_neighbors fp if_id rest ifaces_to_visit flag curr_path path_vec
    else
      match setLastForward curr_path if_id with
      | none => none
      | some cp1 =>
        match fp neigh_id neigh_if_id cp1 path_vec with
        | none => none
        | some (true, cp2, pv2) =>
          match popBack cp2 with
          | none => none
          | some cp3 =>
            if ifaces_to_visit.isEmpty then some (NeighLoopRes.earlyTrue cp3 pv2)
            else find_path_neighbors fp if_id rest ifaces_to_visit true cp3 pv2
        | some (false, cp2, pv2) =>
          match popBack cp2 with
          | none => none
          | some cp3 => find_path_neighbors fp if_id rest ifaces_to_visit flag cp3 pv2

/-- The outer `for (if_id, iface) in start_node.ifaces.iter()` loop of
`find_path`: removes each visited interface from the still-to-explore pool
(`retain`), runs the neighbor loop, and either propagates its early
`return true` or carries the updated state to the next interface. -/
def find_path_ifaces (fp : NodeId → IfaceIndex → Path → List Path →
      Option (Bool × Path × List Path))
    (ifaces : List (IfaceIndex × Interface)) (ifaces_to_visit : List IfaceIndex)
    (flag : Bool) (curr_path : Path) (path_vec : List Path) :
    Option (Bool × Path × List Path) :=
  match ifaces with
  | [] => some (flag, curr_path, path_vec)
  | (if_id, iface) :: rest =>
    match find_path_neighbors fp if_id iface.neighbors
        (ifaces_to_visit.filter (fun x => x ≠ if_id)) flag curr_path path_vec with
    | none => none
    | some (NeighLoopRes.earlyTrue cp pv) => some (true, cp, pv)
    | some (NeighLoopRes.done flag2 cp pv) =>
      find_path_ifaces fp rest (ifaces_to_visit.filter (fun x => x ≠ if_id)) flag2 cp pv

/-- `Topology::find_path`.  State passing replaces the `&mut` parameters:
the result is `some (success flag, final in-progress path, final
accumulator)`, or `none` when a lookup panics or the fuel bounding the
recursion depth runs out. -/
def find_path (fuel : Nat) (topo : Topology) (start_id : NodeId) (start_if_id : IfaceIndex)
    (finish_id : NodeId) (finish_if_id : IfaceIndex)
    (curr_path : Path) (path_vec : List Path) : Option (Bool × Path × List Path) :=
  match fuel with
  | 0 => none
  | fuel2 + 1 =>
    match lookupAssoc start_id topo.nodes with
    | none => none
    | some start_node =>
      let cp : Path := ⟨curr_path.nodes ++
        [{ PathNode.new start_id with reverse_if_id := start_if_id }]⟩
      if start_id = finish_id then
        match setLastForward cp finish_if_id with
        | none => none
        | some cp2 => some (true, cp2, path_vec ++ [cp2])
      else
        find_path_ifaces
          (fun neigh_id neigh_if_id c v =>
            find_path fuel2 topo neigh_id neigh_if_id finish_id finish_if_id c v)
          start_node.ifaces
          (((start_node.ifaces.map Prod.snd).filter
            (fun x => x.if_type = InterfaceType.LocalNet)).map (fun x => x.id))
          false cp path_vec

/-- The node-id sequence of a path. -/
def pathIds (p : Path) : List NodeId := p.nodes.map (fun n => n.id)

/-- Id and entry-interface tag of the first hop of a path. -/
def headTag (p : Path) : Option (NodeId × IfaceIndex) :=
  p.nodes.head?.map (fun x => (x.id, x.reverse_if_id))

/-- Exit-interface tag of the last hop of a path. -/
def lastFwd (p : Path) : Option IfaceIndex :=
  p.nodes.getLast?.map (fun x => x.forward_if_id)

/-- The A–B–C line topology of the source's tests (`create_line_topology`),
with `A = 10`, `B = 11`, `C = 12`: A(1) -- (1)B(2) -- (1)C, all interfaces
`LocalNet`. -/
def lineTopo : Topology := ⟨[
  (10, ⟨10, [(1, ⟨1, InterfaceType.LocalNet, [(11, 1)]⟩)]⟩),
  (11, ⟨11, [(1, ⟨1, InterfaceType.LocalNet, [(10, 1)]⟩),
             (2, ⟨2, InterfaceType.LocalNet, [(12, 1)]⟩)]⟩),
  (12, ⟨12, [(1, ⟨1, InterfaceType.LocalNet, [(11, 2)]⟩)]⟩)]⟩

/-- A two-node topology: node 1 linked to node 2 over one `LocalNet`
interface on each side. -/
def topoAB : Topology := ⟨[
  (1, ⟨1, [(1, ⟨1, InterfaceType.LocalNet, [(2, 1)]⟩)]⟩),
  (2, ⟨2, [(1, ⟨1, InterfaceType.LocalNet, [(1, 1)]⟩)]⟩)]⟩

/-- A topology in which node 1 owns no `LocalNet` interface but its
`Internet` interface 5 carries a neighbor link to node 2 — permitted by the
data model, which does not validate neighbor lists. -/
def topoInternetLink : Topology := ⟨[
  (1, ⟨1, [(5, ⟨5, InterfaceType.Internet, [(2, 7)]⟩)]⟩),
  (2, ⟨2, []⟩)]⟩

/-! Basic lemmas about the path-editing primitives. -/

theorem setLastForward_of_concat {p : Path} {base : List PathNode} {ln : PathNode}
    (h : p.nodes = base ++ [ln]) (f : IfaceIndex) :
    setLastForward p f = some ⟨base ++ [{ ln with forward_if_id := f }]⟩ := by
  simp [setLastForward, h]

theorem setLastForward_eq_some {p : Path} {f : IfaceIndex} {p2 : Path}
    (h : setLastForward p f = some p2) :
    ∃ base ln, p.nodes = base ++ [ln] ∧ p2.nodes = base ++ [{ ln with forward_if_id := f }] := by
  rcases List.eq_nil_or_concat p.nodes with h0 | ⟨base, ln, h0⟩
  · simp [setLastForward, h0] at h
  · rw [List.concat_eq_append] at h0
    refine ⟨base, ln, h0, ?_⟩
    rw [setLastForward_of_concat h0 f] at h
    cases h
    rfl

theorem popBack_of_concat {p : Path} {base : List PathNode} {x : PathNode}
    (h : p.nodes = base ++ [x]) : popBack p = some ⟨base⟩ := by
  simp [popBack, h]

theorem check_if_visitted_eq_false {id : NodeId} {p : Path} :
    check_if_visitted id p = false ↔ id ∉ pathIds p := by
  simp [check_if_visitted, pathIds]

/-! Shape and success-flag invariant of one `find_path` call: the call
appends exactly one hop (its own node) to the in-progress path, only
appends to the accumulator, and reports success exactly when it appended a
completed path. -/

/-- Contract assumed of the recursive call `fp` handed to the loop
helpers. -/
def fpShape (fp : NodeId → IfaceIndex → Path → List Path →
    Option (Bool × Path × List Path)) : Prop :=
  ∀ n nif c v b c2 v2, fp n nif c v = some (b, c2, v2) →
    (∃ pn, pn.id = n ∧ pn.reverse_if_id = nif ∧ c2.nodes = c.nodes ++ [pn]) ∧
    (∃ new, v2 = v ++ new ∧ (b = true ↔ new ≠ []))

/-- Invariant delivered by one run of the neighbor loop, relative to the
in-progress path `base ++ [ln]` and accumulator `pv` at loop entry. -/
def neighShape (base : List PathNode) (ln : PathNode) (flag : Bool) (pv : List Path) :
    NeighLoopRes → Prop
  | NeighLoopRes.done flag2 cp2 pv2 =>
    (∃ pn, pn.id = ln.id ∧ pn.reverse_if_id = ln.reverse_if_id ∧ cp2.nodes = base ++ [pn]) ∧
    (∃ new, pv2 = pv ++ new ∧ (flag2 = true ↔ (flag = true ∨ new ≠ [])))
  | NeighLoopRes.earlyTrue cp2 pv2 =>
    (∃ pn, pn.id = ln.id ∧ pn.reverse_if_id = ln.reverse_if_id ∧ cp2.nodes = base ++ [pn]) ∧
    (∃ new, pv2 = pv ++ new ∧ new ≠ [])

theorem find_path_neighbors_shape {fp} (hfp : fpShape fp) (if_id : IfaceIndex) :
    ∀ (neighbors : List (NodeId × IfaceIndex)) (pool : List IfaceIndex) (flag : Bool)
      (base : List PathNode) (ln : PathNode) (cp : Path) (pv : List Path) (r : NeighLoopRes),
      cp.nodes = base ++ [ln] →
      find_path_neighbors fp if_id neighbors pool flag cp pv = some r →
      neighShape base ln flag pv r := by
  intro neighbors
  induction neighbors with
  | nil =>
    intro pool flag base ln cp pv r hcp h
    rw [find_path_neighbors] at h
    cases h
    exact ⟨⟨ln, rfl, rfl, hcp⟩, [], by simp, by cases flag <;> simp⟩
  | cons head rest ih =>
    obtain ⟨n, nif⟩ := head
    intro pool flag base ln cp pv r hcp h
    rw [find_path_neighbors] at h
    by_cases hvis : check_if_visitted n cp = true
    · rw [if_pos hvis] at h
      exact ih pool flag base ln cp pv r hcp h
    · rw [if_neg hvis] at h
      rw [setLastForward_of_concat hcp if_id] at h
      dsimp only at h
      set ln2 : PathNode := { ln with forward_if_id := if_id } with hln2
      cases hrec : fp n nif ⟨base ++ [ln2]⟩ pv with
      | none => rw [hrec] at h; cases h
      | some res =>
        obtain ⟨b, cp2, pv2⟩ := res
        rw [hrec] at h
        obtain ⟨⟨pn2, hpn2id, hpn2rev, hcp2⟩, new1, hpv2, hbnew⟩ :=
          hfp n nif ⟨base ++ [ln2]⟩ pv b cp2 pv2 hrec
        cases b with
        | true =>
          dsimp only at h
          have hcp2b : cp2.nodes = (base ++ [ln2]) ++ [pn2] := by simpa using hcp2
          rw [popBack_of_concat hcp2b] at h
          dsimp only at h
          by_cases hpool : pool.isEmpty
          · rw [if_pos hpool] at h
            cases h
            refine ⟨⟨ln2, rfl, rfl, rfl⟩, new1, hpv2, ?_⟩
            simpa using hbnew
          · rw [if_neg hpool] at h
            have hsh := ih pool true base ln2 ⟨base ++ [ln2]⟩ pv2 r rfl h
            have hnew1 : new1 ≠ [] := by simpa using hbnew
            cases r with
            | done flag2 cp3 pv3 =>
              obtain ⟨⟨pn, h1, h2, h3⟩, new2, hpv3, hflag2⟩ := hsh
              refine ⟨⟨pn, h1, h2, h3⟩, new1 ++ new2, by rw [hpv3, hpv2, List.append_assoc], ?_⟩
              constructor
              · intro _
                right
                simp [hnew1]
              · intro _
                exact hflag2.mpr (Or.inl rfl)
            | earlyTrue cp3 pv3 =>
              obtain ⟨⟨pn, h1, h2, h3⟩, new2, hpv3, hnew2⟩ := hsh
              exact ⟨⟨pn, h1, h2, h3⟩, new1 ++ new2, by rw [hpv3, hpv2, List.append_assoc],
                by simp [hnew1]⟩
        | false =>
          have hnew1 : new1 = [] := by simpa using hbnew
          dsimp only at h
          have hcp2b : cp2.nodes = (base ++ [ln2]) ++ [pn2] := by simpa using hcp2
          rw [popBack_of_concat hcp2b] at h
          dsimp only at h
          have hpv : pv2 = pv := by simp [hpv2, hnew1]
          have hsh := ih pool flag base ln2 ⟨base ++ [ln2]⟩ pv2 r rfl h
          rw [hpv] at hsh
          cases r with
          | done flag2 cp3 pv3 =>
            obtain ⟨⟨pn, h1, h2, h3⟩, new2, hpv3, hflag2⟩ := hsh
            exact ⟨⟨pn, h1, h2, h3⟩, new2, hpv3, hflag2⟩
          | earlyTrue cp3 pv3 =>
            obtain ⟨⟨pn, h1, h2, h3⟩, new2, hpv3, hnew2⟩ := hsh
            exact ⟨⟨pn, h1, h2, h3⟩, new2, hpv3, hnew2⟩

theorem find_path_ifaces_shape {fp} (hfp : fpShape fp) :
    ∀ (ifaces : List (IfaceIndex × Interface)) (pool : List IfaceIndex) (flag : Bool)
      (base : List PathNode) (ln : PathNode) (cp : Path) (pv : List Path)
      (b : Bool) (cp2 : Path) (pv2 : List Path),
      cp.nodes = base ++ [ln] →
      find_path_ifaces fp ifaces pool flag cp pv = some (b, cp2, pv2) →
      (∃ pn, pn.id = ln.id ∧ pn.reverse_if_id = ln.reverse_if_id ∧ cp2.nodes = base ++ [pn]) ∧
      (∃ new, pv2 = pv ++ new ∧ (b = true ↔ (flag = true ∨ new ≠ []))) := by
  intro ifaces
  induction ifaces with
  | nil =>
    intro pool flag base ln cp pv b cp2 pv2 hcp h
    rw [find_path_ifaces] at h
    cases h
    exact ⟨⟨ln, rfl, rfl, hcp⟩, [], by simp, by cases flag <;> simp⟩
  | cons head rest ih =>
    obtain ⟨if_id, iface⟩ := head
    intro pool flag base ln cp pv b cp2 pv2 hcp h
    rw [find_path_ifaces] at h
    cases hnl : find_path_neighbors fp if_id iface.neighbors
        (pool.filter (fun x => x ≠ if_id)) flag cp pv with
    | none => rw [hnl] at h; cases h
    | some r =>
      rw [hnl] at h
      have hsh := find_path_neighbors_shape hfp if_id iface.neighbors
        (pool.filter (fun x => x ≠ if_id)) flag base ln cp pv r hcp hnl
      cases r with
      | earlyTrue cpE pvE =>
        cases h
        obtain ⟨⟨pn, h1, h2, h3⟩, new1, hpvE, hnew1⟩ := hsh
        exact ⟨⟨pn, h1, h2, h3⟩, new1, hpvE, by simp [hnew1]⟩
      | done flag3 cpD pvD =>
        obtain ⟨⟨pn3, h1, h2, h3⟩, new1, hpvD, hflag3⟩ := hsh
        obtain ⟨⟨pn, g1, g2, g3⟩, new2, hpv2, hb⟩ :=
          ih (pool.filter (fun x => x ≠ if_id)) flag3 base pn3 cpD pvD b cp2 pv2 h3 h
        refine ⟨⟨pn, g1.trans h1, g2.trans h2, g3⟩, new1 ++ new2,
          by rw [hpv2, hpvD, List.append_assoc], ?_⟩
        rw [hb, hflag3]
        constructor
        · rintro ((hf | h4) | h5)
          · exact Or.inl hf
          · exact Or.inr (by simp [h4])
          · exact Or.inr (by intro hc; exact h5 (List.append_eq_nil.mp hc).2)
        · rintro (hf | h4)
          · exact Or.inl (Or.inl hf)
          · by_cases hn1 : new1 = []
            · subst hn1
              exact Or.inr (by simpa using h4)
            · exact Or.inl (Or.inr hn1)

theorem find_path_shape :
    ∀ (fuel : Nat) (topo : Topology) (s : NodeId) (sif : IfaceIndex) (f : NodeId)
      (fif : IfaceIndex) (cp : Path) (pv : List Path) (b : Bool) (cp2 : Path) (pv2 : List Path),
      find_path fuel topo s sif f fif cp pv = some (b, cp2, pv2) →
      (∃ pn, pn.id = s ∧ pn.reverse_if_id = sif ∧ cp2.nodes = cp.nodes ++ [pn]) ∧
      (∃ new, pv2 = pv ++ new ∧ (b = true ↔ new ≠ [])) := by
  intro fuel
  induction fuel with
  | zero =>
    intro topo s sif f fif cp pv b cp2 pv2 h
    rw [find_path] at h
    cases h
  | succ fuel2 ih =>
    intro topo s sif f fif cp pv b cp2 pv2 h
    rw [find_path] at h
    cases hl : lookupAssoc s topo.nodes with
    | none => rw [hl] at h; cases h
    | some start_node =>
      rw [hl] at h
      dsimp only at h
      by_cases hsf : s = f
      · rw [if_pos hsf] at h
        rw [setLastForward_of_concat (p := ⟨cp.nodes ++ [{ PathNode.new s with reverse_if_id := sif }]⟩) rfl fif] at h
        dsimp only at h
        cases h
        refine ⟨⟨_, rfl, rfl, rfl⟩, [_], rfl, by simp⟩
      · rw [if_neg hsf] at h
        have hfp : fpShape (fun neigh_id neigh_if_id c v =>
            find_path fuel2 topo neigh_id neigh_if_id f fif c v) := by
          intro n nif c v b2 c2 v2 hh
          exact ih topo n nif f fif c v b2 c2 v2 hh
        obtain ⟨⟨pn, h1, h2, h3⟩, new, hpv, hb⟩ :=
          find_path_ifaces_shape hfp start_node.ifaces _ false cp.nodes
            { PathNode.new s with reverse_if_id := sif }
            ⟨cp.nodes ++ [{ PathNode.new s with reverse_if_id := sif }]⟩ pv b cp2 pv2 rfl h
        exact ⟨⟨pn, h1, h2, h3⟩, new, hpv, by simpa using hb⟩

/-- Accumulator component of a neighbor-loop result. -/
def NeighLoopRes.pathVec : NeighLoopRes → List Path
  | NeighLoopRes.earlyTrue _ pv => pv
  | NeighLoopRes.done _ _ pv => pv

theorem pathIds_setLastForward {p p1 : Path} {f : IfaceIndex}
    (h : setLastForward p f = some p1) : pathIds p1 = pathIds p := by
  obtain ⟨base, ln, h0, h1⟩ := setLastForward_eq_some h
  simp [pathIds, h0, h1]

theorem headTag_setLastForward {p p1 : Path} {f : IfaceIndex}
    (h : setLastForward p f = some p1) : headTag p1 = headTag p := by
  obtain ⟨base, ln, h0, h1⟩ := setLastForward_eq_some h
  cases base with
  | nil => simp [headTag, h0, h1]
  | cons x rest => simp [headTag, h0, h1]

theorem headTag_push (cp : Path) (pn : PathNode) :
    headTag ⟨cp.nodes ++ [pn]⟩ = some ((headTag cp).getD (pn.id, pn.reverse_if_id)) := by
  cases hn : cp.nodes with
  | nil => simp [headTag, hn]
  | cons x rest => simp [headTag, hn]

theorem nodup_push {cp : Path} {s : NodeId} (hnd : (pathIds cp).Nodup) (hs : s ∉ pathIds cp)
    (pn : PathNode) (hpn : pn.id = s) :
    (pathIds (⟨cp.nodes ++ [pn]⟩ : Path)).Nodup := by
  have heq : pathIds (⟨cp.nodes ++ [pn]⟩ : Path) = pathIds cp ++ [s] := by
    simp [pathIds, hpn]
  rw [heq]
  exact List.Nodup.append hnd (by simp)
    (fun a ha hb => hs (by rwa [List.mem_singleton.mp hb] at ha))

/-! Simple-path invariant: every path appended to the accumulator has
pairwise-distinct node ids, provided the in-progress path had distinct ids
not containing the current node. -/

/-- Nodup contract assumed of the recursive call handed to the loops. -/
def fpNodup (fp : NodeId → IfaceIndex → Path → List Path →
    Option (Bool × Path × List Path)) : Prop :=
  ∀ n nif c v b c2 v2, fp n nif c v = some (b, c2, v2) →
    (pathIds c).Nodup → n ∉ pathIds c →
    ∃ new, v2 = v ++ new ∧ ∀ q ∈ new, (pathIds q).Nodup

theorem find_path_neighbors_nodup {fp} (hfp : fpShape fp) (hfpN : fpNodup fp)
    (if_id : IfaceIndex) :
    ∀ (neighbors : List (NodeId × IfaceIndex)) (pool : List IfaceIndex) (flag : Bool)
      (cp : Path) (pv : List Path) (r : NeighLoopRes),
      (pathIds cp).Nodup →
      find_path_neighbors fp if_id neighbors pool flag cp pv = some r →
      ∃ new, r.pathVec = pv ++ new ∧ ∀ q ∈ new, (pathIds q).Nodup := by
  intro neighbors
  induction neighbors with
  | nil =>
    intro pool flag cp pv r hnd h
    rw [find_path_neighbors] at h
    cases h
    exact ⟨[], by simp [NeighLoopRes.pathVec], by simp⟩
  | cons head rest ih =>
    obtain ⟨n, nif⟩ := head
    intro pool flag cp pv r hnd h
    rw [find_path_neighbors] at h
    by_cases hvis : check_if_visitted n cp = true
    · rw [if_pos hvis] at h
      exact ih pool flag cp pv r hnd h
    · rw [if_neg hvis] at h
      have hnmem : n ∉ pathIds cp :=
        check_if_visitted_eq_false.mp (Bool.eq_false_iff.mpr hvis)
      cases hset : setLastForward cp if_id with
      | none => rw [hset] at h; cases h
      | some cp1 =>
        rw [hset] at h
        dsimp only at h
        have hids1 : pathIds cp1 = pathIds cp := pathIds_setLastForward hset
        cases hrec : fp n nif cp1 pv with
        | none => rw [hrec] at h; cases h
        | some res =>
          obtain ⟨b, cp2, pv2⟩ := res
          rw [hrec] at h
          obtain ⟨new1, hpv2, hnew1⟩ :=
            hfpN n nif cp1 pv b cp2 pv2 hrec (hids1 ▸ hnd) (hids1 ▸ hnmem)
          obtain ⟨⟨pn2, _, _, hcp2⟩, _⟩ := hfp n nif cp1 pv b cp2 pv2 hrec
          cases b with
          | true =>
            dsimp only at h
            rw [popBack_of_concat hcp2] at h
            dsimp only at h
            have hids3 : pathIds (⟨cp1.nodes⟩ : Path) = pathIds cp := hids1
            by_cases hpool : pool.isEmpty
            · rw [if_pos hpool] at h
              cases h
              exact ⟨new1, hpv2, hnew1⟩
            · rw [if_neg hpool] at h
              obtain ⟨new2, hpv3, hnew2⟩ :=
                ih pool true ⟨cp1.nodes⟩ pv2 r (hids3 ▸ hnd) h
              refine ⟨new1 ++ new2, by rw [hpv3, hpv2, List.append_assoc], ?_⟩
              intro q hq
              rcases List.mem_append.mp hq with hq1 | hq2
              · exact hnew1 q hq1
              · exact hnew2 q hq2
          | false =>
            dsimp only at h
            rw [popBack_of_concat hcp2] at h
            dsimp only at h
            have hids3 : pathIds (⟨cp1.nodes⟩ : Path) = pathIds cp := hids1
            obtain ⟨new2, hpv3, hnew2⟩ :=
              ih pool flag ⟨cp1.nodes⟩ pv2 r (hids3 ▸ hnd) h
            refine ⟨new1 ++ new2, by rw [hpv3, hpv2, List.append_assoc], ?_⟩
            intro q hq
            rcases List.mem_append.mp hq with hq1 | hq2
            · exact hnew1 q hq1
            · exact hnew2 q hq2

theorem find_path_ifaces_nodup {fp} (hfp : fpShape fp) (hfpN : fpNodup fp) :
    ∀ (ifaces : List (IfaceIndex × Interface)) (pool : List IfaceIndex) (flag : Bool)
      (base : List PathNode) (ln : PathNode) (cp : Path) (pv : List Path)
      (b : Bool) (cp2 : Path) (pv2 : List Path),
      cp.nodes = base ++ [ln] →
      (pathIds cp).Nodup →
      find_path_ifaces fp ifaces pool flag cp pv = some (b, cp2, pv2) →
      ∃ new, pv2 = pv ++ new ∧ ∀ q ∈ new, (pathIds q).Nodup := by
  intro ifaces
  induction ifaces with
  | nil =>
    intro pool flag base ln cp pv b cp2 pv2 hcp hnd h
    rw [find_path_ifaces] at h
    cases h
    exact ⟨[], by simp, by simp⟩
  | cons head rest ih =>
    obtain ⟨if_id, iface⟩ := head
    intro pool flag base ln cp pv b cp2 pv2 hcp hnd h
    rw [find_path_ifaces] at h
    cases hnl : find_path_neighbors fp if_id iface.neighbors
        (pool.filter (fun x => x ≠ if_id)) flag cp pv with
    | none => rw [hnl] at h; cases h
    | some r =>
      rw [hnl] at h
      obtain ⟨new1, hpvR, hnew1⟩ := find_path_neighbors_nodup hfp hfpN if_id iface.neighbors
        (pool.filter (fun x => x ≠ if_id)) flag cp pv r hnd hnl
      have hshR := find_path_neighbors_shape hfp if_id iface.neighbors
        (pool.filter (fun x => x ≠ if_id)) flag base ln cp pv r hcp hnl
      cases r with
      | earlyTrue cpE pvE =>
        cases h
        dsimp only [NeighLoopRes.pathVec] at hpvR
        exact ⟨new1, hpvR, hnew1⟩
      | done flag3 cpD pvD =>
        dsimp only [NeighLoopRes.pathVec] at hpvR
        obtain ⟨⟨pn3, hp1, hp2, hp3⟩, _⟩ := hshR
        have hidsD : pathIds cpD = pathIds cp := by
          simp [pathIds, hp3, hcp, hp1]
        obtain ⟨new2, hpv2, hnew2⟩ :=
          ih (pool.filter (fun x => x ≠ if_id)) flag3 base pn3 cpD pvD b cp2 pv2 hp3
            (hidsD ▸ hnd) h
        refine ⟨new1 ++ new2, by rw [hpv2, hpvR, List.append_assoc], ?_⟩
        intro q hq
        rcases List.mem_append.mp hq with hq1 | hq2
        · exact hnew1 q hq1
        · exact hnew2 q hq2

theorem find_path_nodup :
    ∀ (fuel : Nat) (topo : Topology) (s : NodeId) (sif : IfaceIndex) (f : NodeId)
      (fif : IfaceIndex) (cp : Path) (pv : List Path) (b : Bool) (cp2 : Path) (pv2 : List Path),
      find_path fuel topo s sif f fif cp pv = some (b, cp2, pv2) →
      (pathIds cp).Nodup → s ∉ pathIds cp →
      ∃ new, pv2 = pv ++ new ∧ ∀ q ∈ new, (pathIds q).Nodup := by
  intro fuel
  induction fuel with
  | zero =>
    intro topo s sif f fif cp pv b cp2 pv2 h
    rw [find_path] at h
    cases h
  | succ fuel2 ih =>
    intro topo s sif f fif cp pv b cp2 pv2 h hnd hs
    rw [find_path] at h
    cases hl : lookupAssoc s topo.nodes with
    | none => rw [hl] at h; cases h
    | some start_node =>
      rw [hl] at h
      dsimp only at h
      by_cases hsf : s = f
      · rw [if_pos hsf] at h
        rw [setLastForward_of_concat (p := ⟨cp.nodes ++ [{ PathNode.new s with reverse_if_id := sif }]⟩) rfl fif] at h
        dsimp only at h
        cases h
        refine ⟨[_], rfl, ?_⟩
        intro q hq
        rw [List.mem_singleton.mp hq]
        exact nodup_push hnd hs _ rfl
      · rw [if_neg hsf] at h
        have hfp : fpShape (fun neigh_id neigh_if_id c v =>
            find_path fuel2 topo neigh_id neigh_if_id f fif c v) := by
          intro n nif c v b2 c2 v2 hh
          exact find_path_shape fuel2 topo n nif f fif c v b2 c2 v2 hh
        have hfpN : fpNodup (fun neigh_id neigh_if_id c v =>
            find_path fuel2 topo neigh_id neigh_if_id f fif c v) := by
          intro n nif c v b2 c2 v2 hh
          exact ih topo n nif f fif c v b2 c2 v2 hh
        have hndPush : (pathIds (⟨cp.nodes ++ [{ PathNode.new s with reverse_if_id := sif }]⟩ : Path)).Nodup :=
          nodup_push hnd hs _ rfl
        exact find_path_ifaces_nodup hfp hfpN start_node.ifaces _ false cp.nodes
          { PathNode.new s with reverse_if_id := sif }
          ⟨cp.nodes ++ [{ PathNode.new s with reverse_if_id := sif }]⟩ pv b cp2 pv2 rfl
          hndPush h

/-! Interface-tag invariant: every appended path starts with the entry
(node, interface) of the outermost pending call and ends with the
destination interface as its exit tag. -/

theorem headTag_congr {p q : Path} {base : List PathNode} {ln pn : PathNode}
    (hp : p.nodes = base ++ [ln]) (hq : q.nodes = base ++ [pn])
    (hid : pn.id = ln.id) (hrev : pn.reverse_if_id = ln.reverse_if_id) :
    headTag q = headTag p := by
  cases base with
  | nil => simp [headTag, hp, hq, hid, hrev]
  | cons x rest => simp [headTag, hp, hq]

/-- Tag contract assumed of the recursive call handed to the loops:
appended paths start at the callee's (node, entry interface) — or at the
head of the path the callee was given, when that is non-empty — and end
with the destination interface `fif`. -/
def fpTags (fif : IfaceIndex) (fp : NodeId → IfaceIndex → Path → List Path →
    Option (Bool × Path × List Path)) : Prop :=
  ∀ n nif c v b c2 v2, fp n nif c v = some (b, c2, v2) →
    ∃ new, v2 = v ++ new ∧ ∀ q ∈ new,
      headTag q = some ((headTag c).getD (n, nif)) ∧ lastFwd q = some fif

theorem find_path_neighbors_tags {fif : IfaceIndex} {fp} (hfp : fpShape fp)
    (hfpT : fpTags fif fp) (if_id : IfaceIndex) :
    ∀ (neighbors : List (NodeId × IfaceIndex)) (pool : List IfaceIndex) (flag : Bool)
      (cp : Path) (pv : List Path) (r : NeighLoopRes),
      find_path_neighbors fp if_id neighbors pool flag cp pv = some r →
      ∃ new, r.pathVec = pv ++ new ∧ ∀ q ∈ new,
        headTag q = headTag cp ∧ lastFwd q = some fif := by
  intro neighbors
  induction neighbors with
  | nil =>
    intro pool flag cp pv r h
    rw [find_path_neighbors] at h
    cases h
    exact ⟨[], by simp [NeighLoopRes.pathVec], by simp⟩
  | cons head rest ih =>
    obtain ⟨n, nif⟩ := head
    intro pool flag cp pv r h
    rw [find_path_neighbors] at h
    by_cases hvis : check_if_visitted n cp = true
    · rw [if_pos hvis] at h
      exact ih pool flag cp pv r h
    · rw [if_neg hvis] at h
      cases hset : setLastForward cp if_id with
      | none => rw [hset] at h; cases h
      | some cp1 =>
        rw [hset] at h
        dsimp only at h
        have hhd1 : headTag cp1 = headTag cp := headTag_setLastForward hset
        obtain ⟨base, ln, h0, h1⟩ := setLastForward_eq_some hset
        have hsome : ∃ t, headTag cp = some t := by
          cases base with
          | nil => exact ⟨(ln.id, ln.reverse_if_id), by simp [headTag, h0]⟩
          | cons x r2 => exact ⟨(x.id, x.reverse_if_id), by simp [headTag, h0]⟩
        cases hrec : fp n nif cp1 pv with
        | none => rw [hrec] at h; cases h
        | some res =>
          obtain ⟨b, cp2, pv2⟩ := res
          rw [hrec] at h
          obtain ⟨new1, hpv2, hnew1⟩ := hfpT n nif cp1 pv b cp2 pv2 hrec
          have hnew1' : ∀ q ∈ new1, headTag q = headTag cp ∧ lastFwd q = some fif := by
            intro q hq
            obtain ⟨hh, hl2⟩ := hnew1 q hq
            refine ⟨?_, hl2⟩
            obtain ⟨t, ht⟩ := hsome
            rw [hh, hhd1, ht]
            simp
          obtain ⟨⟨pn2, _, _, hcp2⟩, _⟩ := hfp n nif cp1 pv b cp2 pv2 hrec
          cases b with
          | true =>
            dsimp only at h
            rw [popBack_of_concat hcp2] at h
            dsimp only at h
            by_cases hpool : pool.isEmpty
            · rw [if_pos hpool] at h
              cases h
              exact ⟨new1, hpv2, hnew1'⟩
            · rw [if_neg hpool] at h
              obtain ⟨new2, hpv3, hnew2⟩ := ih pool true ⟨cp1.nodes⟩ pv2 r h
              refine ⟨new1 ++ new2, by rw [hpv3, hpv2, List.append_assoc], ?_⟩
              intro q hq
              rcases List.mem_append.mp hq with hq1 | hq2
              · exact hnew1' q hq1
              · obtain ⟨hh, hl2⟩ := hnew2 q hq2
                exact ⟨by rw [hh]; exact hhd1, hl2⟩
          | false =>
            dsimp only at h
            rw [popBack_of_concat hcp2] at h
            dsimp only at h
            obtain ⟨new2, hpv3, hnew2⟩ := ih pool flag ⟨cp1.nodes⟩ pv2 r h
            refine ⟨new1 ++ new2, by rw [hpv3, hpv2, List.append_assoc], ?_⟩
            intro q hq
            rcases List.mem_append.mp hq with hq1 | hq2
            · exact hnew1' q hq1
            · obtain ⟨hh, hl2⟩ := hnew2 q hq2
              exact ⟨by rw [hh]; exact hhd1, hl2⟩

theorem find_path_ifaces_tags {fif : IfaceIndex} {fp} (hfp : fpShape fp)
    (hfpT : fpTags fif fp) :
    ∀ (ifaces : List (IfaceIndex × Interface)) (pool : List IfaceIndex) (flag : Bool)
      (base : List PathNode) (ln : PathNode) (cp : Path) (pv : List Path)
      (b : Bool) (cp2 : Path) (pv2 : List Path),
      cp.nodes = base ++ [ln] →
      find_path_ifaces fp ifaces pool flag cp pv = some (b, cp2, pv2) →
      ∃ new, pv2 = pv ++ new ∧ ∀ q ∈ new,
        headTag q = headTag cp ∧ lastFwd q = some fif := by
  intro ifaces
  induction ifaces with
  | nil =>
    intro pool flag base ln cp pv b cp2 pv2 hcp h
    rw [find_path_ifaces] at h
    cases h
    exact ⟨[], by simp, by simp⟩
  | cons head rest ih =>
    obtain ⟨if_id, iface⟩ := head
    intro pool flag base ln cp pv b cp2 pv2 hcp h
    rw [find_path_ifaces] at h
    cases hnl : find_path_neighbors fp if_id iface.neighbors
        (pool.filter (fun x => x ≠ if_id)) flag cp pv with
    | none => rw [hnl] at h; cases h
    | some r =>
      rw [hnl] at h
      obtain ⟨new1, hpvR, hnew1⟩ := find_path_neighbors_tags hfp hfpT if_id iface.neighbors
        (pool.filter (fun x => x ≠ if_id)) flag cp pv r hnl
      have hshR := find_path_neighbors_shape hfp if_id iface.neighbors
        (pool.filter (fun x => x ≠ if_id)) flag base ln cp pv r hcp hnl
      cases r with
      | earlyTrue cpE pvE =>
        cases h
        dsimp only [NeighLoopRes.pathVec] at hpvR
        exact ⟨new1, hpvR, hnew1⟩
      | done flag3 cpD pvD =>
        dsimp only [NeighLoopRes.pathVec] at hpvR
        obtain ⟨⟨pn3, hp1, hp2, hp3⟩, _⟩ := hshR
        have hhdD : headTag cpD = headTag cp := headTag_congr hcp hp3 hp1 hp2
        obtain ⟨new2, hpv2, hnew2⟩ :=
          ih (pool.filter (fun x => x ≠ if_id)) flag3 base pn3 cpD pvD b cp2 pv2 hp3 h
        refine ⟨new1 ++ new2, by rw [hpv2, hpvR, List.append_assoc], ?_⟩
        intro q hq
        rcases List.mem_append.mp hq with hq1 | hq2
        · exact hnew1 q hq1
        · obtain ⟨hh, hl2⟩ := hnew2 q hq2
          exact ⟨by rw [hh]; exact hhdD, hl2⟩

theorem find_path_tags :
    ∀ (fuel : Nat) (topo : Topology) (s : NodeId) (sif : IfaceIndex) (f : NodeId)
      (fif : IfaceIndex) (cp : Path) (pv : List Path) (b : Bool) (cp2 : Path) (pv2 : List Path),
      find_path fuel topo s sif f fif cp pv = some (b, cp2, pv2) →
      ∃ new, pv2 = pv ++ new ∧ ∀ q ∈ new,
        headTag q = some ((headTag cp).getD (s, sif)) ∧ lastFwd q = some fif := by
  intro fuel
  induction fuel with
  | zero =>
    intro topo s sif f fif cp pv b cp2 pv2 h
    rw [find_path] at h
    cases h
  | succ fuel2 ih =>
    intro topo s sif f fif cp pv b cp2 pv2 h
    rw [find_path] at h
    cases hl : lookupAssoc s topo.nodes with
    | none => rw [hl] at h; cases h
    | some start_node =>
      rw [hl] at h
      dsimp only at h
      by_cases hsf : s = f
      · rw [if_pos hsf] at h
        rw [setLastForward_of_concat (p := ⟨cp.nodes ++ [{ PathNode.new s with reverse_if_id := sif }]⟩) rfl fif] at h
        dsimp only at h
        cases h
        refine ⟨[_], rfl, ?_⟩
        intro q hq
        rw [List.mem_singleton.mp hq]
        constructor
        · exact headTag_push cp { id := s, forward_if_id := fif, reverse_if_id := sif }
        · simp [lastFwd]
      · rw [if_neg hsf] at h
        have hfp : fpShape (fun neigh_id neigh_if_id c v =>
            find_path fuel2 topo neigh_id neigh_if_id f fif c v) := by
          intro n nif c v b2 c2 v2 hh
          exact find_path_shape fuel2 topo n nif f fif c v b2 c2 v2 hh
        have hfpT : fpTags fif (fun neigh_id neigh_if_id c v =>
            find_path fuel2 topo neigh_id neigh_if_id f fif c v) := by
          intro n nif c v b2 c2 v2 hh
          exact ih topo n nif f fif c v b2 c2 v2 hh
        obtain ⟨new, hpv, hnew⟩ :=
          find_path_ifaces_tags hfp hfpT start_node.ifaces _ false cp.nodes
            { PathNode.new s with reverse_if_id := sif }
            ⟨cp.nodes ++ [{ PathNode.new s with reverse_if_id := sif }]⟩ pv b cp2 pv2 rfl h
        refine ⟨new, hpv, ?_⟩
        intro q hq
        obtain ⟨hh, hl2⟩ := hnew q hq
        refine ⟨?_, hl2⟩
        rw [hh]
        exact headTag_push cp { PathNode.new s with reverse_if_id := sif }

/-! Claim theorems. -/

/-- Claim C1: for every topology and every call to `find_path` that starts
with an empty in-progress path, every `Path` appended to the result
accumulator during the call has a node sequence without repeated
`NodeId`. -/
theorem c1_appended_paths_are_simple
    (fuel : Nat) (topo : Topology) (s : NodeId) (sif : IfaceIndex) (f : NodeId)
    (fif : IfaceIndex) (pv : List Path) (b : Bool) (cp2 : Path) (pv2 : List Path)
    (h : find_path fuel topo s sif f fif ⟨[]⟩ pv = some (b, cp2, pv2)) :
    ∃ new, pv2 = pv ++ new ∧ ∀ q ∈ new, (pathIds q).Nodup :=
  find_path_nodup fuel topo s sif f fif ⟨[]⟩ pv b cp2 pv2 h (by simp [pathIds])
    (by simp [pathIds])

/-- Witness for C1: the A–B–C line topology run `find_path(A, C)` appends
exactly the path A–B–C, whose node ids 10, 11, 12 are pairwise
distinct. -/
theorem c1_witness :
    ∃ new, ([⟨[⟨10, 1, 0⟩, ⟨11, 2, 1⟩, ⟨12, 0, 1⟩]⟩] : List Path) = [] ++ new ∧
      ∀ q ∈ new, (pathIds q).Nodup :=
  c1_appended_paths_are_simple 20 lineTopo 10 0 12 0 [] true ⟨[⟨10, 1, 0⟩]⟩
    [⟨[⟨10, 1, 0⟩, ⟨11, 2, 1⟩, ⟨12, 0, 1⟩]⟩] (by decide)

/-- Claim C10: every returning `find_path` call leaves the in-progress path
equal to its contents at entry plus exactly one appended `PathNode` whose
id is the call's current node, and only appends to the accumulator. -/
theorem c10_frame_conditions
    (fuel : Nat) (topo : Topology) (s : NodeId) (sif : IfaceIndex) (f : NodeId)
    (fif : IfaceIndex) (cp : Path) (pv : List Path) (b : Bool) (cp2 : Path) (pv2 : List Path)
    (h : find_path fuel topo s sif f fif cp pv = some (b, cp2, pv2)) :
    (∃ pn, pn.id = s ∧ cp2.nodes = cp.nodes ++ [pn]) ∧ (∃ new, pv2 = pv ++ new) := by
  obtain ⟨⟨pn, h1, _, h3⟩, new, hpv, _⟩ :=
    find_path_shape fuel topo s sif f fif cp pv b cp2 pv2 h
  exact ⟨⟨pn, h1, h3⟩, new, hpv⟩

/-- Witness for C10 on a concrete two-node search. -/
theorem c10_witness :
    (∃ pn, pn.id = 1 ∧ (⟨[⟨1, 1, 5⟩]⟩ : Path).nodes = (⟨[]⟩ : Path).nodes ++ [pn]) ∧
    (∃ new, ([⟨[⟨1, 1, 5⟩, ⟨2, 6, 1⟩]⟩] : List Path) = [] ++ new) :=
  c10_frame_conditions 10 topoAB 1 5 2 6 ⟨[]⟩ [] true ⟨[⟨1, 1, 5⟩]⟩
    [⟨[⟨1, 1, 5⟩, ⟨2, 6, 1⟩]⟩] (by decide)

/-- Claim C3: the success flag is `true` exactly when at least one path was
appended to the accumulator during the call, and on `false` the
accumulator is unchanged. -/
theorem c3_flag_iff_appended
    (fuel : Nat) (topo : Topology) (s : NodeId) (sif : IfaceIndex) (f : NodeId)
    (fif : IfaceIndex) (cp : Path) (pv : List Path) (b : Bool) (cp2 : Path) (pv2 : List Path)
    (h : find_path fuel topo s sif f fif cp pv = some (b, cp2, pv2)) :
    ∃ new, pv2 = pv ++ new ∧ (b = true ↔ new ≠ []) ∧ (b = false → pv2 = pv) := by
  obtain ⟨_, new, hpv, hb⟩ := find_path_shape fuel topo s sif f fif cp pv b cp2 pv2 h
  refine ⟨new, hpv, hb, ?_⟩
  intro hbf
  have hnil : new = [] := by
    by_contra hne
    rw [hb.mpr hne] at hbf
    cases hbf
  simp [hpv, hnil]

/-- Witness for C3 on a concrete two-node search that succeeds. -/
theorem c3_witness :
    ∃ new, ([⟨[⟨1, 1, 5⟩, ⟨2, 6, 1⟩]⟩] : List Path) = [] ++ new ∧
      (true = true ↔ new ≠ []) ∧ (true = false → ([⟨[⟨1, 1, 5⟩, ⟨2, 6, 1⟩]⟩] : List Path) = []) :=
  c3_flag_iff_appended 10 topoAB 1 5 2 6 ⟨[]⟩ [] true ⟨[⟨1, 1, 5⟩]⟩
    [⟨[⟨1, 1, 5⟩, ⟨2, 6, 1⟩]⟩] (by decide)

/-- Claim C4: when `find_path` starts with an empty in-progress path and an
empty accumulator, every returned path starts at the origin node with the
origin interface as entry tag (`headTag q = some (s, sif)`) and ends with
the destination interface as exit tag (`lastFwd q = some fif`). -/
theorem c4_endpoint_tags
    (fuel : Nat) (topo : Topology) (s : NodeId) (sif : IfaceIndex) (f : NodeId)
    (fif : IfaceIndex) (b : Bool) (cp2 : Path) (pv2 : List Path)
    (h : find_path fuel topo s sif f fif ⟨[]⟩ [] = some (b, cp2, pv2)) :
    ∀ q ∈ pv2, headTag q = some (s, sif) ∧ lastFwd q = some fif := by
  obtain ⟨new, hpv, hnew⟩ := find_path_tags fuel topo s sif f fif ⟨[]⟩ [] b cp2 pv2 h
  intro q hq
  rw [hpv] at hq
  obtain ⟨hh, hl⟩ := hnew q (by simpa using hq)
  refine ⟨?_, hl⟩
  rw [hh]
  simp [headTag]

/-- Witness for C4 on the A–B–C line topology. -/
theorem c4_witness :
    headTag ⟨[⟨10, 1, 7⟩, ⟨11, 2, 1⟩, ⟨12, 4, 1⟩]⟩ = some (10, 7) ∧
    lastFwd ⟨[⟨10, 1, 7⟩, ⟨11, 2, 1⟩, ⟨12, 4, 1⟩]⟩ = some 4 :=
  c4_endpoint_tags 20 lineTopo 10 7 12 4 true ⟨[⟨10, 1, 7⟩]⟩
    [⟨[⟨10, 1, 7⟩, ⟨11, 2, 1⟩, ⟨12, 4, 1⟩]⟩] (by decide)
    ⟨[⟨10, 1, 7⟩, ⟨11, 2, 1⟩, ⟨12, 4, 1⟩]⟩ (by decide)

/-- Claim C5: with origin node equal to destination node and empty initial
in-progress path and accumulator, `find_path` appends exactly one path of
length one, tagged with the supplied origin and destination interfaces,
and reports success. -/
theorem c5_origin_eq_destination
    (fuel : Nat) (topo : Topology) (s : NodeId) (sif fif : IfaceIndex) (node : TopologyNode)
    (h : lookupAssoc s topo.nodes = some node) :
    find_path (fuel + 1) topo s sif s fif ⟨[]⟩ [] =
      some (true, ⟨[⟨s, fif, sif⟩]⟩, [⟨[⟨s, fif, sif⟩]⟩]) := by
  rw [find_path, h]
  dsimp only
  rw [if_pos rfl]
  simp [setLastForward, PathNode.new]

/-- Witness for C5: a same-node query on the line topology. -/
theorem c5_witness :
    find_path 5 lineTopo 11 3 11 4 ⟨[]⟩ [] =
      some (true, ⟨[⟨11, 4, 3⟩]⟩, [⟨[⟨11, 4, 3⟩]⟩]) :=
  c5_origin_eq_destination 4 lineTopo 11 3 4
    ⟨11, [(1, ⟨1, InterfaceType.LocalNet, [(10, 1)]⟩),
          (2, ⟨2, InterfaceType.LocalNet, [(12, 1)]⟩)]⟩ (by decide)

/-- Claim C7: calling `find_path` twice with identical arguments on the
same topology gives the same flag and the same accumulator — in particular
the same multiset of discovered paths. -/
theorem c7_repeat_same_paths
    (fuel : Nat) (topo : Topology) (s : NodeId) (sif : IfaceIndex) (f : NodeId)
    (fif : IfaceIndex) (cp : Path) (pv : List Path) (b1 b2 : Bool) (p1 p2 : Path)
    (v1 v2 : List Path)
    (h1 : find_path fuel topo s sif f fif cp pv = some (b1, p1, v1))
    (h2 : find_path fuel topo s sif f fif cp pv = some (b2, p2, v2)) :
    b1 = b2 ∧ v1 = v2 ∧ (v1 : Multiset Path) = (v2 : Multiset Path) := by
  rw [h1] at h2
  cases h2
  exact ⟨rfl, rfl, rfl⟩

/-- Witness for C7: two identical runs on the line topology. -/
theorem c7_witness :
    true = true ∧ ([⟨[⟨10, 1, 0⟩, ⟨11, 2, 1⟩, ⟨12, 0, 1⟩]⟩] : List Path) =
      [⟨[⟨10, 1, 0⟩, ⟨11, 2, 1⟩, ⟨12, 0, 1⟩]⟩] ∧
    (([⟨[⟨10, 1, 0⟩, ⟨11, 2, 1⟩, ⟨12, 0, 1⟩]⟩] : List Path) : Multiset Path) =
      (([⟨[⟨10, 1, 0⟩, ⟨11, 2, 1⟩, ⟨12, 0, 1⟩]⟩] : List Path) : Multiset Path) :=
  c7_repeat_same_paths 20 lineTopo 10 0 12 0 ⟨[]⟩ [] true true ⟨[⟨10, 1, 0⟩]⟩
    ⟨[⟨10, 1, 0⟩]⟩ [⟨[⟨10, 1, 0⟩, ⟨11, 2, 1⟩, ⟨12, 0, 1⟩]⟩]
    [⟨[⟨10, 1, 0⟩, ⟨11, 2, 1⟩, ⟨12, 0, 1⟩]⟩] (by decide) (by decide)

/-- Counterexample to claim C2 as stated.  On the two-node topology
`topoAB`, the call at node 1 sees its recursive call succeed with the
still-to-explore pool already empty, and reports success — but the
returned in-progress path still ends with node 1's own `PathNode`
(id 1): what the success branch popped from the tail was the `PathNode`
the recursive call had appended for the neighbor (id 2), not "this
node's" `PathNode` as the claim says. -/
theorem c2_counterexample :
    find_path 10 topoAB 1 5 2 6 ⟨[]⟩ [] =
      some (true, ⟨[⟨1, 1, 5⟩]⟩, [⟨[⟨1, 1, 5⟩, ⟨2, 6, 1⟩]⟩]) ∧
    (⟨[⟨1, 1, 5⟩]⟩ : Path).nodes.getLast?.map (fun pn => pn.id) = some 1 := by
  decide

/-- Amended claim C2: when a recursive return is successful and the
still-to-explore pool is empty, the call pops the `PathNode` appended by
the successful recursive call (the neighbor's, id `neigh_id`) from the
tail — its own `PathNode` remains as the tail — and reports success
immediately, without touching the remaining neighbors `restN` of the
current interface or the remaining interfaces `restI` of the node (the
result does not depend on either). -/
theorem c2_amended_early_success
    (fuel : Nat) (topo : Topology) (f : NodeId) (fif : IfaceIndex) (if_id : IfaceIndex)
    (iface : Interface) (neigh_id : NodeId) (neigh_if_id : IfaceIndex)
    (restN : List (NodeId × IfaceIndex)) (restI : List (IfaceIndex × Interface))
    (pool : List IfaceIndex) (flag : Bool) (cp cp1 cp2 : Path) (pv pv2 : List Path)
    (hne : iface.neighbors = (neigh_id, neigh_if_id) :: restN)
    (hvis : check_if_visitted neigh_id cp = false)
    (hset : setLastForward cp if_id = some cp1)
    (hrec : find_path fuel topo neigh_id neigh_if_id f fif cp1 pv = some (true, cp2, pv2))
    (hpool : pool.filter (fun x => x ≠ if_id) = []) :
    ∃ pn, pn.id = neigh_id ∧ cp2.nodes = cp1.nodes ++ [pn] ∧
      find_path_ifaces (fun n nif c v => find_path fuel topo n nif f fif c v)
        ((if_id, iface) :: restI) pool flag cp pv = some (true, cp1, pv2) := by
  obtain ⟨⟨pn, h1, _, h3⟩, _⟩ :=
    find_path_shape fuel topo neigh_id neigh_if_id f fif cp1 pv true cp2 pv2 hrec
  refine ⟨pn, h1, h3, ?_⟩
  have hnl : find_path_neighbors (fun n nif c v => find_path fuel topo n nif f fif c v)
      if_id iface.neighbors [] flag cp pv = some (NeighLoopRes.earlyTrue cp1 pv2) := by
    rw [hne, find_path_neighbors, if_neg (by simp [hvis]), hset]
    dsimp only
    rw [hrec]
    dsimp only
    rw [popBack_of_concat h3]
    rfl
  rw [find_path_ifaces, hpool, hnl]

/-- Witness for the amended C2 on the two-node topology. -/
theorem c2_witness :
    ∃ pn, pn.id = 2 ∧ (⟨[⟨1, 1, 5⟩, ⟨2, 6, 1⟩]⟩ : Path).nodes =
      (⟨[⟨1, 1, 5⟩]⟩ : Path).nodes ++ [pn] ∧
    find_path_ifaces (fun n nif c v => find_path 9 topoAB n nif 2 6 c v)
      [(1, ⟨1, InterfaceType.LocalNet, [(2, 1)]⟩)] [1] false ⟨[⟨1, 0, 5⟩]⟩ [] =
      some (true, ⟨[⟨1, 1, 5⟩]⟩, [⟨[⟨1, 1, 5⟩, ⟨2, 6, 1⟩]⟩]) :=
  c2_amended_early_success 9 topoAB 2 6 1 ⟨1, InterfaceType.LocalNet, [(2, 1)]⟩ 2 1 [] []
    [1] false ⟨[⟨1, 0, 5⟩]⟩ ⟨[⟨1, 1, 5⟩]⟩ ⟨[⟨1, 1, 5⟩, ⟨2, 6, 1⟩]⟩ []
    [⟨[⟨1, 1, 5⟩, ⟨2, 6, 1⟩]⟩] (by decide) (by decide) (by decide) (by decide) (by decide)

/-- Counterexample to claim C6 as stated.  Node 1 of `topoInternetLink` is
not the destination and owns no `LocalNet`-typed interface, yet the call
reports success and appends a path: the interface loop visits every
interface regardless of type, and node 1's `Internet` interface carries a
neighbor link to the destination. -/
theorem c6_counterexample :
    get_local_iface_id_type topoInternetLink 1 InterfaceType.LocalNet = some none ∧
    (1 : NodeId) ≠ 2 ∧
    find_path 10 topoInternetLink 1 0 2 9 ⟨[]⟩ [] =
      some (true, ⟨[⟨1, 5, 0⟩]⟩, [⟨[⟨1, 5, 0⟩, ⟨2, 9, 7⟩]⟩]) := by
  decide

/-- The interface loop over interfaces that all have empty neighbor lists
changes nothing: it returns the incoming flag, path and accumulator. -/
theorem find_path_ifaces_no_neighbors {fp} :
    ∀ (ifaces : List (IfaceIndex × Interface)) (pool : List IfaceIndex) (flag : Bool)
      (cp : Path) (pv : List Path),
      (∀ p ∈ ifaces, p.2.neighbors = []) →
      find_path_ifaces fp ifaces pool flag cp pv = some (flag, cp, pv) := by
  intro ifaces
  induction ifaces with
  | nil =>
    intro pool flag cp pv _
    rw [find_path_ifaces]
  | cons head rest ih =>
    obtain ⟨if_id, iface⟩ := head
    intro pool flag cp pv hemp
    rw [find_path_ifaces]
    have hn : iface.neighbors = [] := hemp (if_id, iface) (by simp)
    rw [hn, find_path_neighbors]
    exact ih (pool.filter (fun x => x ≠ if_id)) flag cp pv
      (fun p hp => hemp p (List.mem_cons_of_mem _ hp))

/-- Amended claim C6: if the current node is not the destination, owns no
`LocalNet`-typed interface, and its (non-`LocalNet`) interfaces carry no
neighbor links — as the data model prescribes for `LocalApp` and
`Internet` interfaces — the call reports failure and leaves the
accumulator unchanged (its in-progress path gains only its own hop). -/
theorem c6_amended_no_localnet_fails
    (fuel : Nat) (topo : Topology) (s : NodeId) (sif : IfaceIndex) (f : NodeId)
    (fif : IfaceIndex) (cp : Path) (pv : List Path) (node : TopologyNode)
    (hl : lookupAssoc s topo.nodes = some node)
    (hsf : s ≠ f)
    (hnoln : ∀ p ∈ node.ifaces, p.2.if_type ≠ InterfaceType.LocalNet)
    (hnonb : ∀ p ∈ node.ifaces, p.2.if_type ≠ InterfaceType.LocalNet → p.2.neighbors = []) :
    find_path (fuel + 1) topo s sif f fif cp pv =
      some (false, ⟨cp.nodes ++ [{ PathNode.new s with reverse_if_id := sif }]⟩, pv) := by
  rw [find_path, hl]
  dsimp only
  rw [if_neg hsf]
  exact find_path_ifaces_no_neighbors node.ifaces _ false _ pv
    (fun p hp => hnonb p hp (hnoln p hp))

/-- Witness for the amended C6: a node whose only interface is an
`Internet` interface with no neighbors. -/
theorem c6_witness :
    find_path 3 (⟨[(1, ⟨1, [(5, ⟨5, InterfaceType.Internet, []⟩)]⟩)]⟩ : Topology)
      1 0 2 9 ⟨[]⟩ [] = some (false, ⟨[⟨1, 0, 0⟩]⟩, []) :=
  c6_amended_no_localnet_fails 2 ⟨[(1, ⟨1, [(5, ⟨5, InterfaceType.Internet, []⟩)]⟩)]⟩
    1 0 2 9 ⟨[]⟩ [] ⟨1, [(5, ⟨5, InterfaceType.Internet, []⟩)]⟩
    (by decide) (by decide) (by decide) (by decide)

theorem findNeighbor_eq_none_iff (to_node : NodeId) :
    ∀ l : List (NodeId × IfaceIndex),
      findNeighbor to_node l = none ↔ ∀ p ∈ l, p.1 ≠ to_node := by
  intro l
  induction l with
  | nil => simp [findNeighbor]
  | cons head rest ih =>
    obtain ⟨nid, adj⟩ := head
    by_cases hh : nid = to_node
    · simp [findNeighbor, hh]
    · simp [findNeighbor, hh, ih]

theorem findNeighbor_eq_some_mem (to_node : NodeId) :
    ∀ (l : List (NodeId × IfaceIndex)) (r : IfaceIndex),
      findNeighbor to_node l = some r → (to_node, r) ∈ l := by
  intro l
  induction l with
  | nil => intro r h; simp [findNeighbor] at h
  | cons head rest ih =>
    obtain ⟨nid, adj⟩ := head
    intro r h
    by_cases hh : nid = to_node
    · rw [findNeighbor, if_pos hh] at h
      cases h
      exact hh ▸ List.mem_cons_self _ _
    · rw [findNeighbor, if_neg hh] at h
      exact List.mem_cons_of_mem _ (ih r h)

theorem findNeighbor_isSome_of_mem (to_node : NodeId) :
    ∀ (l : List (NodeId × IfaceIndex)) (r : IfaceIndex),
      (to_node, r) ∈ l → ∃ r2, findNeighbor to_node l = some r2 := by
  intro l
  induction l with
  | nil => intro r h; cases h
  | cons head rest ih =>
    obtain ⟨nid, adj⟩ := head
    intro r h
    by_cases hh : nid = to_node
    · exact ⟨adj, by rw [findNeighbor, if_pos hh]⟩
    · rcases List.mem_cons.mp h with h1 | h2
      · cases h1
        exact absurd rfl hh
      · obtain ⟨r2, hr2⟩ := ih r h2
        exact ⟨r2, by rw [findNeighbor, if_neg hh]; exact hr2⟩

/-- Claim C8: `get_adjacent_interface(from, via_if, to)` is exactly the
scan of `via_if`'s neighbor list on `from` — so interfaces of `from` other
than `via_if` never affect the result — and that scan returns the
neighbor-side index paired with `to` when `to` occurs in the list, `none`
when it occurs in no pair. -/
theorem c8_adjacent_interface
    (topo : Topology) (from_node : NodeId) (via_if : IfaceIndex) (to_node : NodeId)
    (node : TopologyNode) (iface : Interface)
    (hn : lookupAssoc from_node topo.nodes = some node)
    (hi : lookupAssoc via_if node.ifaces = some iface) :
    get_adjacent_interface topo from_node via_if to_node =
      some (findNeighbor to_node iface.neighbors) ∧
    (findNeighbor to_node iface.neighbors = none ↔ ∀ p ∈ iface.neighbors, p.1 ≠ to_node) ∧
    (∀ r, findNeighbor to_node iface.neighbors = some r → (to_node, r) ∈ iface.neighbors) ∧
    (∀ r, (to_node, r) ∈ iface.neighbors →
      ∃ r2, findNeighbor to_node iface.neighbors = some r2 ∧
        (to_node, r2) ∈ iface.neighbors) := by
  refine ⟨by rw [get_adjacent_interface, hn]; dsimp only; rw [hi], findNeighbor_eq_none_iff to_node _,
    fun r => findNeighbor_eq_some_mem to_node _ r, fun r hr => ?_⟩
  obtain ⟨r2, hr2⟩ := findNeighbor_isSome_of_mem to_node iface.neighbors r hr
  exact ⟨r2, hr2, findNeighbor_eq_some_mem to_node _ r2 hr2⟩

/-- Witness for C8 at node B of the line topology, via interface 2, toward
C. -/
theorem c8_witness :
    get_adjacent_interface lineTopo 11 2 12 =
      some (findNeighbor 12 (⟨2, InterfaceType.LocalNet, [(12, 1)]⟩ : Interface).neighbors) ∧
    (findNeighbor 12 (⟨2, InterfaceType.LocalNet, [(12, 1)]⟩ : Interface).neighbors = none ↔
      ∀ p ∈ (⟨2, InterfaceType.LocalNet, [(12, 1)]⟩ : Interface).neighbors, p.1 ≠ 12) ∧
    (∀ r, findNeighbor 12 (⟨2, InterfaceType.LocalNet, [(12, 1)]⟩ : Interface).neighbors = some r →
      (12, r) ∈ (⟨2, InterfaceType.LocalNet, [(12, 1)]⟩ : Interface).neighbors) ∧
    (∀ r, (12, r) ∈ (⟨2, InterfaceType.LocalNet, [(12, 1)]⟩ : Interface).neighbors →
      ∃ r2, findNeighbor 12 (⟨2, InterfaceType.LocalNet, [(12, 1)]⟩ : Interface).neighbors = some r2 ∧
        (12, r2) ∈ (⟨2, InterfaceType.LocalNet, [(12, 1)]⟩ : Interface).neighbors) :=
  c8_adjacent_interface lineTopo 11 2 12
    ⟨11, [(1, ⟨1, InterfaceType.LocalNet, [(10, 1)]⟩),
          (2, ⟨2, InterfaceType.LocalNet, [(12, 1)]⟩)]⟩
    ⟨2, InterfaceType.LocalNet, [(12, 1)]⟩ (by decide) (by decide)

/-- Claim C9: the lookups abort (model: return `none`) exactly on ids that
do not exist in the topology — `get_node_mut` and
`get_local_iface_id_type` on an unknown `NodeId`, `get_adjacent_interface`
on an unknown `NodeId` or `IfaceIndex`, `find_path` on an unknown current
node id — so under the precondition that all supplied ids exist, the
aborting branch is unreachable (the result is `some _`). -/
theorem c9_fail_fast
    (topo : Topology) (nid : NodeId) (via_if : IfaceIndex) (to_node : NodeId)
    (t : InterfaceType) (fuel : Nat) (sif : IfaceIndex) (f : NodeId) (fif : IfaceIndex)
    (cp : Path) (pv : List Path) :
    (get_node_mut topo nid = none ↔ lookupAssoc nid topo.nodes = none) ∧
    (get_local_iface_id_type topo nid t = none ↔ lookupAssoc nid topo.nodes = none) ∧
    (get_adjacent_interface topo nid via_if to_node = none ↔
      (lookupAssoc nid topo.nodes = none ∨
       ∃ node, lookupAssoc nid topo.nodes = some node ∧
         lookupAssoc via_if node.ifaces = none)) ∧
    (lookupAssoc nid topo.nodes = none →
      find_path (fuel + 1) topo nid sif f fif cp pv = none) := by
  refine ⟨?_, ?_, ?_, ?_⟩
  · rw [get_node_mut]
  · cases hl : lookupAssoc nid topo.nodes with
    | none => simp [get_local_iface_id_type, hl]
    | some node => simp [get_local_iface_id_type, hl]
  · cases hl : lookupAssoc nid topo.nodes with
    | none => simp [get_adjacent_interface, hl]
    | some node =>
      cases hi : lookupAssoc via_if node.ifaces with
      | none => simp [get_adjacent_interface, hl, hi]
      | some iface => simp [get_adjacent_interface, hl, hi]
  · intro hl
    rw [find_path, hl]

/-- Witness for C9 at the unknown node id 99 of the line topology. -/
theorem c9_witness :
    (get_node_mut lineTopo 99 = none ↔ lookupAssoc 99 lineTopo.nodes = none) ∧
    (get_local_iface_id_type lineTopo 99 InterfaceType.LocalNet = none ↔
      lookupAssoc 99 lineTopo.nodes = none) ∧
    (get_adjacent_interface lineTopo 99 1 10 = none ↔
      (lookupAssoc 99 lineTopo.nodes = none ∨
       ∃ node, lookupAssoc 99 lineTopo.nodes = some node ∧
         lookupAssoc 1 node.ifaces = none)) ∧
    (lookupAssoc 99 lineTopo.nodes = none →
      find_path 8 lineTopo 99 0 12 0 ⟨[]⟩ [] = none) :=
  c9_fail_fast lineTopo 99 1 10 InterfaceType.LocalNet 7 0 12 0 ⟨[]⟩ []

end NetGraph
